import Mathlib

/-!
Verification development for the TextToSpeech repository.

The repository converts structured Markdown documents into narrated audio.
We shallowly embed:

* the filename derivation and the annotation-dialect parser of
  `markdown_parser.py` (namespace `MarkdownParser`);
* the inline-dialect parser (alias table + voice segments) that
  `modality_to_speech.py` imports and consumes; its implementation module is
  not part of the provided sources, so it is modelled from the specification
  (definitions marked `Modelled from the spec:`);
* the synthesis orchestrator `ModalityToSpeech.process_markdown_document`
  of `modality_to_speech.py`, with the file system represented explicitly
  (existing output artifacts, temporary files) and the text-to-speech
  backend represented as an oracle giving the outcome of each synthesis
  call (success, failure, or a raised exception);
* `find_voice_by_name` of `tts_elevenlabs.py` and `tts_azure.py`.

Strings are modelled over their character lists; Python's `\w` and `\s`
character classes and `str.lower` are modelled on ASCII.
-/

/-! ### Character classes and Python-style string helpers -/

/-- Python's `\s` class (ASCII): space, tab, newline, carriage return,
vertical tab, form feed. -/
def isSpaceChar (c : Char) : Bool :=
  decide (c.toNat = 32) || decide (c.toNat = 9) || decide (c.toNat = 10) ||
  decide (c.toNat = 13) || decide (c.toNat = 11) || decide (c.toNat = 12)

/-- Python's `\w` class (ASCII): letters, digits, underscore. -/
def isWordChar (c : Char) : Bool :=
  (decide (65 ≤ c.toNat) && decide (c.toNat ≤ 90)) ||
  (decide (97 ≤ c.toNat) && decide (c.toNat ≤ 122)) ||
  (decide (48 ≤ c.toNat) && decide (c.toNat ≤ 57)) ||
  decide (c.toNat = 95)

/-- Python `str.lower` on one character (ASCII model). -/
def pyLower (c : Char) : Char :=
  if 65 ≤ c.toNat ∧ c.toNat ≤ 90 then Char.ofNat (c.toNat + 32) else c

/-- Python `str.strip`: drop whitespace from both ends. -/
def trimChars (l : List Char) : List Char :=
  ((l.dropWhile isSpaceChar).reverse.dropWhile isSpaceChar).reverse

/-- Split a character list into its lines (Python-style: `\n` separators). -/
def splitLines : List Char → List (List Char)
  | [] => [[]]
  | c :: cs =>
    if c = '\n' then [] :: splitLines cs
    else
      match splitLines cs with
      | [] => [[c]]
      | l :: ls => (c :: l) :: ls

/-- Join lines back with `\n` between them. -/
def joinLines (ls : List (List Char)) : List Char :=
  List.intercalate ['\n'] ls

/-- Split a character list at the first occurrence of `pat`, returning the
text before the occurrence and the text after it.  `none` when `pat` does
not occur (for the nonempty patterns used here). -/
def splitOnFirst (pat : List Char) : List Char → Option (List Char × List Char)
  | [] => none
  | c :: cs =>
    if pat.isPrefixOf (c :: cs) then some ([], (c :: cs).drop pat.length)
    else
      match splitOnFirst pat cs with
      | some (b, a) => some (c :: b, a)
      | none => none

/-- Python `str.lower` on a string (ASCII model). -/
def strLower (s : String) : String := String.mk (s.data.map pyLower)

/-! ### Filename derivation (`MarkdownParser.generate_filename_from_title`)

Source (`markdown_parser.py`):
```
filename = re.sub(r'[^\w\s-]', '', title).strip().lower()
filename = re.sub(r'[-\s]+', '_', filename)
return filename + ".mp3"
```
-/

/-- Python `re.sub(r'[^\w\s-]', '', ·)`: keep only word characters, whitespace and
hyphens. -/
def removeSpecial (l : List Char) : List Char :=
  l.filter (fun c => isWordChar c || isSpaceChar c || c = '-')

/-- Characters collapsed by `re.sub(r'[-\s]+', '_', ·)`. -/
def isSepChar (c : Char) : Bool := c = '-' || isSpaceChar c

/-- Python `re.sub(r'[-\s]+', '_', ·)`: each maximal run of whitespace/hyphens
becomes a single underscore.  The boolean flag records whether we are in
the middle of a run. -/
def collapseAux : Bool → List Char → List Char
  | _, [] => []
  | inRun, c :: cs =>
    if isSepChar c then
      if inRun then collapseAux true cs else '_' :: collapseAux true cs
    else c :: collapseAux false cs

def collapseRuns (l : List Char) : List Char := collapseAux false l

namespace MarkdownParser

/-- The method `MarkdownParser.generate_filename_from_title` from `markdown_parser.py`:
remove special characters, strip, lowercase, collapse whitespace/hyphen runs
to underscores, append `.mp3`. -/
def generate_filename_from_title (title : String) : String :=
  String.mk (collapseRuns ((trimChars (removeSpecial title.data)).map pyLower)) ++ ".mp3"

end MarkdownParser

/-- Filename derivation following the spec's wording: "strip all characters
except word-characters, whitespace, and hyphens from the title; lowercase;
trim; collapse internal whitespace/hyphen runs to single underscores; append
`.mp3`" (note the spec lowercases before trimming). -/
def specFilenameFromTitle (title : String) : String :=
  String.mk (collapseRuns (trimChars ((removeSpecial title.data).map pyLower))) ++ ".mp3"

/-! ### Heading lines

Both document dialects share the heading grammar of `markdown_parser.py`:
`^(#+)\s+(.*?)(?:\s+\{(.*?)\})?$` (multiline), with `file=` and `voice=`
parameters extracted from the annotation block by
`file=(.*?)(?:,|\s|$)` and `voice=(.*?)(?:,|\s|$)`.
-/

/-- A parsed heading line: number of `#` characters, stripped title, and the
`file=`/`voice=` parameters of an optional trailing `{...}` block. -/
structure Heading where
  level : Nat
  title : String
  filePar : Option String
  voicePar : Option String
  deriving DecidableEq, Repr

/-- Find the first opening brace preceded by a whitespace character,
returning the text before the whitespace run and the text after the brace
(the lazy title of `(.*?)(?:\s+\{(.*?)\})?$` makes the annotation start at
the earliest such brace). -/
def annotSplitAux (prevSpace : Bool) (seen : List Char) : List Char → Option (List Char × List Char)
  | [] => none
  | c :: cs =>
    if prevSpace && c == Char.ofNat 123 then some (seen.reverse, cs)
    else annotSplitAux (isSpaceChar c) (c :: seen) cs

/-- Split a stripped heading remainder into title and optional annotation
block: an annotation is a whitespace-preceded `{` whose matching `}` is the
last character of the line. -/
def splitAnnotBlock (r : List Char) : List Char × Option (List Char) :=
  if r.getLast? = some (Char.ofNat 125) then
    match annotSplitAux false [] r with
    | some (before, after) => (trimChars before, some after.dropLast)
    | none => (trimChars r, none)
  else (trimChars r, none)

/-- Extract a `key=` parameter from an annotation block: the value runs
lazily up to the first comma, whitespace character, or the end
(`key=(.*?)(?:,|\s|$)`). -/
def extractParam (key : List Char) (annot : List Char) : Option String :=
  match splitOnFirst key annot with
  | none => none
  | some (_, after) =>
    some (String.mk (trimChars (after.takeWhile (fun c => !(c == ',' || isSpaceChar c)))))

/-- Parse one line as a heading: one or more `#`, at least one whitespace
character, then the title with an optional `{...}` annotation block.
The multiline regex is modelled line-wise; the degenerate case in which the
`\s+` after the hashes swallows the newline itself (a heading line holding
nothing but `#` marks and whitespace) is not modelled. -/
def parseHeadingLine (line : List Char) : Option Heading :=
  let hashes := line.takeWhile (fun c => c == '#')
  if hashes.isEmpty then none
  else
    match line.drop hashes.length with
    | [] => none
    | c :: rest =>
      if isSpaceChar c then
        let (titleChars, annot) := splitAnnotBlock (trimChars rest)
        some ⟨hashes.length, String.mk titleChars,
              annot.bind (extractParam "file=".data),
              annot.bind (extractParam "voice=".data)⟩
      else none

/-- Group document lines into blocks: each heading opens a block holding the
lines up to the next heading (or the end); lines before the first heading
belong to no block. -/
def groupBlocks (lines : List (List Char)) : List (Heading × List (List Char)) :=
  (lines.foldr
    (fun l acc =>
      match parseHeadingLine l with
      | some h => ((h, acc.2) :: acc.1, [])
      | none => (acc.1, l :: acc.2))
    ([], [])).1

/-! ### The annotation-dialect parser of `markdown_parser.py`

`MarkdownParser.parse` keeps every heading as a section.  When a heading has
no (or an empty) `file=` annotation, the file name is generated from the
underscore-join of the section-hierarchy titles at levels `1..level`
(`section_hierarchy` is a level-to-title dictionary updated as headings are
processed in order).
-/

/-- Python `"_".join(parts)`. -/
def joinUnderscore : List String → String
  | [] => ""
  | p :: ps => ps.foldl (fun acc q => acc ++ "_" ++ q) p

namespace MarkdownParser

/-- The `MarkdownSection` class of `markdown_parser.py` as populated by
`parse`: `file_path` is always a string after filename generation. -/
structure MarkdownSection where
  title : String
  content : String
  file_path : String
  voice_name : Option String
  deriving DecidableEq, Repr

/-- The joined section path for a heading of level `level`: titles of
hierarchy levels `1..level` present in the level-to-title dictionary. -/
def sectionPath (hier : List (Nat × String)) (level : Nat) : String :=
  joinUnderscore ((List.range level).filterMap (fun i => hier.lookup (i + 1)))

/-- The per-heading loop of `parse`: update the hierarchy, generate the file
path when the `file=` annotation is missing or empty, emit the section. -/
def buildSections : List (Heading × String) → List (Nat × String) → List MarkdownSection
  | [], _ => []
  | (h, content) :: rest, hier =>
    let hier' := (h.level, h.title) :: hier
    let generated := generate_filename_from_title (sectionPath hier' h.level)
    let fp :=
      match h.filePar with
      | some f => if f = "" then generated else f
      | none => generated
    ⟨h.title, content, fp, h.voicePar⟩ :: buildSections rest hier'

/-- The method `MarkdownParser.parse` of `markdown_parser.py`: find all headings, take
each heading's span up to the next heading as its content (stripped), and
build the section list. -/
def parse (markdown_text : String) : List MarkdownSection :=
  let blocks := groupBlocks (splitLines markdown_text.data)
  buildSections (blocks.map (fun b => (b.1, String.mk (trimChars (joinLines b.2))))) []

end MarkdownParser

/-! ### The inline-dialect parser consumed by `modality_to_speech.py`

`modality_to_speech.py` imports `process_markdown, MarkdownSection,
VoiceSegment` and unpacks `aliases, sections = process_markdown(markdown_text)`,
iterating over `section.segments` with fields `segment.voice` and
`segment.text` and using `section.title` and `section.file_path`.  The
module implementing this inline dialect is not among the provided sources,
so it is modelled from the specification (§3, §4.1, §6, §8).
-/

/-- Modelled from the spec: a `VoiceSegment` is a contiguous span of text
attributed to one voice (§3); `modality_to_speech.py` reads `segment.voice`
and `segment.text`. -/
structure VoiceSegment where
  voice : String
  text : String
  deriving DecidableEq, Repr

/-- Modelled from the spec: a `Section` of the inline dialect — title, file
path (annotated or derived from the title), and the ordered voice segments
(§3); `modality_to_speech.py` reads `section.title`, `section.file_path`
and `section.segments`. -/
structure MarkdownSection where
  title : String
  file_path : String
  segments : List VoiceSegment
  deriving DecidableEq, Repr

/-- Modelled from the spec: the `AliasTable` maps alias names to concrete
voice identifiers (§3). -/
abbrev AliasTable := List (String × String)

/-- Single-level alias lookup (§4.1: an alias resolving to another alias is
not recursively resolved): the name is resolved through the table when it
matches an alias and used literally otherwise. -/
def resolveVoice (aliases : AliasTable) (name : String) : String :=
  match aliases.find? (fun p => p.1 == name) with
  | some p => p.2
  | none => name

/-- The inline voice-switch marker (§6: `[voice:X]`). -/
def voiceMarkerPat : List Char := "[voice:".data

/-- The alias-definition marker (§6: `[alias:Name=Voice]`). -/
def aliasMarkerPat : List Char := "[alias:".data

/-- Modelled from the spec: collect `[alias:Name=Voice]` occurrences from
the preamble region (§4.1); the name runs to `=`, the voice to `]`.  The
fuel argument bounds the recursion by the region length. -/
def collectAliasesAux : Nat → List Char → AliasTable
  | 0, _ => []
  | fuel + 1, s =>
    match splitOnFirst aliasMarkerPat s with
    | none => []
    | some (_, rest) =>
      let name := rest.takeWhile (fun c => c != '=')
      let afterName := (rest.dropWhile (fun c => c != '=')).drop 1
      let value := afterName.takeWhile (fun c => c != ']')
      let afterValue := (afterName.dropWhile (fun c => c != ']')).drop 1
      (String.mk name, String.mk value) :: collectAliasesAux fuel afterValue

/-- Modelled from the spec: the alias region is the document text strictly
before the first heading of level ≥ 2 (§4.1: aliases are a document
preamble feature). -/
def aliasRegion (lines : List (List Char)) : List Char :=
  joinLines (lines.takeWhile (fun l =>
    match parseHeadingLine l with
    | some h => decide (h.level < 2)
    | none => true))

def collectAliases (lines : List (List Char)) : AliasTable :=
  let region := aliasRegion lines
  collectAliasesAux (region.length + 1) region

/-- Modelled from the spec: voice-switch segmentation of one section span
(§4.1).  `s` starts directly after a `[voice:` marker: the voice name runs
to `]`, its text to the next marker or the span end; each trimmed nonempty
text span becomes one segment.  The fuel argument bounds the recursion by
the span length. -/
def segLoopAux (aliases : AliasTable) : Nat → List Char → List VoiceSegment
  | 0, _ => []
  | fuel + 1, s =>
    let name := s.takeWhile (fun c => c != ']')
    let afterName := (s.dropWhile (fun c => c != ']')).drop 1
    let voice := resolveVoice aliases (String.mk name)
    match splitOnFirst voiceMarkerPat afterName with
    | none =>
      let t := trimChars afterName
      if t.isEmpty then [] else [⟨voice, String.mk t⟩]
    | some (txt, rest) =>
      let t := trimChars txt
      if t.isEmpty then segLoopAux aliases fuel rest
      else ⟨voice, String.mk t⟩ :: segLoopAux aliases fuel rest

/-- Modelled from the spec: scan a section span for `[voice:` markers; text
before the first marker is discarded (§4.1). -/
def segmentSpan (aliases : AliasTable) (span : List Char) : List VoiceSegment :=
  match splitOnFirst voiceMarkerPat span with
  | none => []
  | some (_, rest) => segLoopAux aliases (rest.length + 1) rest

/-- Modelled from the spec: a candidate section is retained only when its
span yields at least one segment (§3: a section with zero non-empty
segments is dropped; §4.1: sections with no synthesizable content are
silently dropped); `file_path` is the `file=` annotation when present and
otherwise derived from the title (§3, §4.1). -/
def mkInlineSection (aliases : AliasTable) (b : Heading × List (List Char)) :
    Option MarkdownSection :=
  let segs := segmentSpan aliases (joinLines b.2)
  if segs.isEmpty then none
  else
    some ⟨b.1.title,
          (match b.1.filePar with
           | some f => if f = "" then MarkdownParser.generate_filename_from_title b.1.title else f
           | none => MarkdownParser.generate_filename_from_title b.1.title),
          segs⟩

/-- Modelled from the spec: `parse(document_text) → (AliasTable, ordered
list of Section)` (§4.1); this is the `process_markdown` that
`modality_to_speech.py` imports. -/
def process_markdown (markdown_text : String) : AliasTable × List MarkdownSection :=
  let lines := splitLines markdown_text.data
  let aliases := collectAliases lines
  (aliases, (groupBlocks lines).filterMap (mkInlineSection aliases))

/-! ### The synthesis orchestrator (`ModalityToSpeech.process_markdown_document`)

The orchestrator of `modality_to_speech.py` is embedded with explicit
state:

* `existing` — the set (list without duplicates) of final artifacts on disk;
* `temps` — the temporary per-segment files currently on disk, identified
  by creation order (`tempfile.NamedTemporaryFile(delete=False)` creates
  the file before the synthesis call);
* `trace` — the outcomes of the `tts_client.text_to_speech` calls made so
  far, in call order (ghost instrumentation; temporary file `k` is the one
  created for call `k`);
* `results` — the `results` dictionary as an insertion-ordered
  key-to-value list.

The backend is an oracle mapping the call index, segment text and voice
name to the call's outcome: returning `True`, returning `False`, or
raising.  Audio decoding and concatenation of existing temporary files and
the final `sf.write` are abstracted as succeeding (their failure modes are
not exercised by any claim); `os.makedirs` and logging are no-ops.
-/

inductive SynthOutcome where
  | ok
  | fail
  | exn
  deriving DecidableEq, Repr

deriving instance DecidableEq for Except

/-- The outcome oracle for `tts_client.text_to_speech` calls: call index,
segment text, resolved voice name. -/
abbrev Backend := Nat → String → String → SynthOutcome

structure RunState where
  existing : List String
  temps : List Nat
  trace : List SynthOutcome
  results : List (String × Bool)
  deriving DecidableEq, Repr

/-- Python dict assignment `m[k] = v` on an insertion-ordered list. -/
def dictUpdate (m : List (String × Bool)) (k : String) (v : Bool) : List (String × Bool) :=
  if (m.map Prod.fst).contains k then
    m.map (fun p => if p.1 = k then (k, v) else p)
  else m ++ [(k, v)]

/-- The cleanup loops (`for temp_path in temp_files: os.remove(temp_path)`):
remove every listed temporary file from the disk. -/
def removeTemps (ts : List Nat) (rem : List Nat) : List Nat :=
  ts.filter (fun t => !(rem.contains t))

/-- Writing `sf.write(output_path, ...)`: the artifact now exists. -/
def insertPath (ex : List String) (p : String) : List String :=
  if ex.contains p then ex else ex ++ [p]

/-- Python `os.path.isabs` (POSIX model): the path starts with a slash. -/
def isAbsPath (p : String) : Bool :=
  match p.data with
  | [] => false
  | c :: _ => c == '/'

/-- Python `os.path.join(output_dir, p)` for the relative `p` used here. -/
def joinPath (dir p : String) : String := dir ++ "/" ++ p

/-- The output path of a section: absolute `file_path` verbatim, relative
`file_path` joined under `output_dir`. -/
def outputPath (output_dir : String) (fp : String) : String :=
  if isAbsPath fp then fp else joinPath output_dir fp

/-- The per-segment loop of `process_markdown_document` (lines 79–99):
skip segments whose stripped text is empty; for each remaining segment
create a temporary file, call the backend with the segment's voice (or the
default when the segment's voice is falsy), and record the success flag
and, on success, the temporary file path.  A raised exception propagates
(`Except.error` carries the state at the raise). -/
def processSegments (backend : Backend) (default_voice_name : String) (st : RunState) :
    List VoiceSegment → Except RunState (RunState × List Bool × List Nat)
  | [] => .ok (st, [], [])
  | seg :: rest =>
    if (trimChars seg.text.data).isEmpty then
      processSegments backend default_voice_name st rest
    else
      let voice_name := if seg.voice = "" then default_voice_name else seg.voice
      let tid := st.trace.length
      let out := backend tid seg.text voice_name
      let st1 : RunState :=
        { st with temps := st.temps ++ [tid], trace := st.trace ++ [out] }
      match out with
      | .exn => .error st1
      | .ok =>
        match processSegments backend default_voice_name st1 rest with
        | .error e => .error e
        | .ok (st', succ, tmps) => .ok (st', true :: succ, tid :: tmps)
      | .fail =>
        match processSegments backend default_voice_name st1 rest with
        | .error e => .error e
        | .ok (st', succ, tmps) => .ok (st', false :: succ, tmps)

/-- The per-section body of `process_markdown_document` (lines 60–149):
skip-if-exists, segment synthesis, all-or-nothing concatenation, result
recording and temporary-file cleanup. -/
def processSection (backend : Backend) (default_voice_name : String)
    (overwrite_audio : Bool) (output_dir : String) (st : RunState)
    (s : MarkdownSection) : Except RunState RunState :=
  let path := outputPath output_dir s.file_path
  if !overwrite_audio && st.existing.contains path then
    .ok { st with results := dictUpdate st.results path true }
  else
    match processSegments backend default_voice_name st s.segments with
    | .error e => .error e
    | .ok (st', succ, tmps) =>
      if succ.all (fun b => b) && !tmps.isEmpty then
        .ok { st' with
              existing := insertPath st'.existing path,
              temps := removeTemps st'.temps tmps,
              results := dictUpdate st'.results path true }
      else
        .ok { st' with
              temps := removeTemps st'.temps tmps,
              results := dictUpdate st'.results path false }

/-- The section loop: sections in document order, an uncaught exception
propagates. -/
def runSections (backend : Backend) (default_voice_name : String)
    (overwrite_audio : Bool) (output_dir : String) (st : RunState) :
    List MarkdownSection → Except RunState RunState
  | [] => .ok st
  | s :: rest =>
    match processSection backend default_voice_name overwrite_audio output_dir st s with
    | .error e => .error e
    | .ok st' => runSections backend default_voice_name overwrite_audio output_dir st' rest

/-- The body of `process_markdown_document` from the section list onward: empty section
lists return `{}` at once; the function-level `try/except` turns a raised
exception into an empty result dictionary (the file-system effects up to
the raise remain). -/
def runOrchestrator (backend : Backend) (default_voice_name : String)
    (overwrite_audio : Bool) (output_dir : String) (st0 : RunState)
    (sections : List MarkdownSection) : RunState :=
  if sections.isEmpty then { st0 with results := [] }
  else
    match runSections backend default_voice_name overwrite_audio output_dir
        { st0 with results := [] } sections with
    | .ok st => st
    | .error st => { st with results := [] }

/-- The method `ModalityToSpeech.process_markdown_document`: parse the document with
the inline-dialect parser, then run the orchestrator over the parsed
sections (the alias table is already resolved into the segments and is not
used further, matching the source). -/
def processMarkdownDocument (backend : Backend) (markdown_text : String)
    (default_voice_name : String) (output_dir : String)
    (overwrite_audio : Bool) (st0 : RunState) : RunState :=
  runOrchestrator backend default_voice_name overwrite_audio output_dir st0
    (process_markdown markdown_text).2

/-! ### Voice lookup in the backends (`tts_elevenlabs.py`, `tts_azure.py`)

`find_voice_by_name` in both backends fetches the voice listing
(`get_voices`), returns `None` when the listing is falsy or lacks a
`voices` attribute, and otherwise returns the `voice_id` of the first voice
whose lowercased name equals the lowercased query, `None` when there is
none; a surrounding `try/except` turns any raised error into `None`.  The
listing result is passed in as an `Option` (`none` models a failed
listing).
-/

namespace ElevenLabsTTS

/-- A voice of the ElevenLabs listing as used by `find_voice_by_name`. -/
structure Voice where
  name : String
  voice_id : String
  deriving DecidableEq, Repr

/-- The `response.voices` container. -/
structure VoicesResponse where
  voices : List Voice
  deriving DecidableEq, Repr

/-- The method `ElevenLabsTTS.find_voice_by_name` of `tts_elevenlabs.py`. -/
def find_voice_by_name (response : Option VoicesResponse) (voice_name : String) :
    Option String :=
  match response with
  | none => none
  | some r => (r.voices.find? (fun v => strLower v.name == strLower voice_name)).map
      (fun v => v.voice_id)

end ElevenLabsTTS

namespace AzureTTS

/-- The `AzureVoice` class of `tts_azure.py` (the fields read by
`find_voice_by_name`; `voice_id` is the short name, used as the ID). -/
structure AzureVoice where
  voice_id : String
  name : String
  locale : String
  gender : String
  deriving DecidableEq, Repr

/-- The `AzureVoicesResponse` container. -/
structure AzureVoicesResponse where
  voices : List AzureVoice
  deriving DecidableEq, Repr

/-- The method `AzureTTS.find_voice_by_name` of `tts_azure.py`. -/
def find_voice_by_name (response : Option AzureVoicesResponse) (voice_name : String) :
    Option String :=
  match response with
  | none => none
  | some r => (r.voices.find? (fun v => strLower v.name == strLower voice_name)).map
      (fun v => v.voice_id)

end AzureTTS

/-! ### Dictionary lemmas -/

/-- Python dict lookup `m[k]` (as an option). -/
def dictLookup : List (String × Bool) → String → Option Bool
  | [], _ => none
  | p :: ps, k => if p.1 = k then some p.2 else dictLookup ps k

/-! #### Lowercasing commutes with trimming -/

theorem isSpaceChar_pyLower (c : Char) : isSpaceChar (pyLower c) = isSpaceChar c := by
  unfold pyLower
  split
  · rename_i h
    obtain ⟨h1, h2⟩ := h
    simp only [isSpaceChar]
    generalize hg : c.toNat = n at h1 h2 ⊢
    interval_cases n <;> decide
  · rfl

theorem dropWhile_map_pyLower (l : List Char) :
    (l.map pyLower).dropWhile isSpaceChar = (l.dropWhile isSpaceChar).map pyLower := by
  induction l with
  | nil => rfl
  | cons c cs ih =>
    simp only [List.map_cons, List.dropWhile_cons, isSpaceChar_pyLower]
    by_cases h : isSpaceChar c
    · simp [h, ih]
    · simp [h]

theorem trimChars_map_pyLower (l : List Char) :
    trimChars (l.map pyLower) = (trimChars l).map pyLower := by
  unfold trimChars
  rw [dropWhile_map_pyLower, ← List.map_reverse, dropWhile_map_pyLower, ← List.map_reverse]

theorem dictLookup_mapUpdate_of_ne (k p : String) (v : Bool) (h : p ≠ k)
    (m : List (String × Bool)) :
    dictLookup (m.map (fun q => if q.1 = k then (k, v) else q)) p = dictLookup m p := by
  induction m with
  | nil => rfl
  | cons q qs ih =>
    obtain ⟨a, b⟩ := q
    by_cases hak : a = k
    · have hkp : ¬ k = p := fun he => h he.symm
      subst hak
      simp [dictLookup, hkp, ih]
    · by_cases hap : a = p
      · simp [dictLookup, hak, hap, h]
      · simp [dictLookup, hak, hap, ih]

theorem dictLookup_append_single_of_ne (k p : String) (v : Bool) (h : p ≠ k)
    (m : List (String × Bool)) : dictLookup (m ++ [(k, v)]) p = dictLookup m p := by
  induction m with
  | nil =>
    have hkp : ¬ k = p := fun he => h he.symm
    simp [dictLookup, hkp]
  | cons q qs ih =>
    obtain ⟨a, b⟩ := q
    by_cases hap : a = p
    · simp [dictLookup, hap]
    · simp [dictLookup, hap, ih]

theorem dictLookup_dictUpdate_self (m : List (String × Bool)) (k : String) (v : Bool) :
    dictLookup (dictUpdate m k v) k = some v := by
  unfold dictUpdate
  split <;> rename_i hc
  · induction m with
    | nil => simp at hc
    | cons q ps ih =>
      obtain ⟨a, b⟩ := q
      by_cases hp : a = k
      · subst hp
        simp [dictLookup]
      · have hps : (List.map Prod.fst ps).contains k = true := by
          simp only [List.map_cons, List.contains_cons, Bool.or_eq_true] at hc
          rcases hc with h | h
          · exact absurd (eq_of_beq h).symm hp
          · exact h
        simpa [dictLookup, hp] using ih hps
  · induction m with
    | nil => simp [dictLookup]
    | cons q ps ih =>
      obtain ⟨a, b⟩ := q
      have hp : ¬ a = k := by
        intro he
        apply hc
        simp only [List.map_cons, List.contains_cons, he]
        simp
      have hps : ¬ (List.map Prod.fst ps).contains k = true := by
        intro hmem
        apply hc
        simp only [List.map_cons, List.contains_cons, hmem]
        simp
      simpa [dictLookup, hp] using ih hps

theorem dictLookup_dictUpdate_of_ne (m : List (String × Bool)) (k p : String) (v : Bool)
    (h : p ≠ k) : dictLookup (dictUpdate m k v) p = dictLookup m p := by
  unfold dictUpdate
  split
  · exact dictLookup_mapUpdate_of_ne k p v h m
  · exact dictLookup_append_single_of_ne k p v h m

theorem dictLookup_dictUpdate_true_pres (m : List (String × Bool)) (k p : String)
    (h : dictLookup m p = some true) : dictLookup (dictUpdate m k true) p = some true := by
  by_cases hpk : p = k
  · subst hpk
    exact dictLookup_dictUpdate_self m p true
  · rw [dictLookup_dictUpdate_of_ne m k p true hpk]
    exact h

theorem mem_keys_exists_dictLookup (m : List (String × Bool)) (p : String)
    (h : p ∈ m.map Prod.fst) : ∃ b, dictLookup m p = some b := by
  induction m with
  | nil => simp at h
  | cons q qs ih =>
    obtain ⟨a, b⟩ := q
    by_cases hq : a = p
    · exact ⟨b, by simp [dictLookup, hq]⟩
    · have hmem : p ∈ qs.map Prod.fst := by
        simp only [List.map_cons, List.mem_cons] at h
        rcases h with h1 | h1
        · exact absurd h1.symm hq
        · exact h1
      obtain ⟨b', hb⟩ := ih hmem
      exact ⟨b', by simp [dictLookup, hq, hb]⟩

theorem keys_dictUpdate (m : List (String × Bool)) (k : String) (v : Bool) :
    (dictUpdate m k v).map Prod.fst =
      if (m.map Prod.fst).contains k then m.map Prod.fst else m.map Prod.fst ++ [k] := by
  unfold dictUpdate
  split <;> rename_i hc
  · rw [List.map_map]
    refine List.map_congr_left (fun p _ => ?_)
    by_cases hp : p.1 = k
    · simp [Function.comp, hp]
    · simp [Function.comp, hp]
  · simp

theorem mem_keys_dictUpdate (m : List (String × Bool)) (k : String) (v : Bool) (p : String) :
    p ∈ (dictUpdate m k v).map Prod.fst ↔ p ∈ m.map Prod.fst ∨ p = k := by
  rw [keys_dictUpdate]
  split <;> rename_i hc
  · constructor
    · exact Or.inl
    · rintro (h | rfl)
      · exact h
      · simpa using hc
  · simp

theorem nodup_keys_dictUpdate (m : List (String × Bool)) (k : String) (v : Bool)
    (h : (m.map Prod.fst).Nodup) : ((dictUpdate m k v).map Prod.fst).Nodup := by
  rw [keys_dictUpdate]
  split <;> rename_i hc
  · exact h
  · refine List.Nodup.append h (List.nodup_singleton k) ?_
    intro a ha hb
    rcases List.mem_singleton.mp hb with rfl
    exact hc (by simpa using ha)

/-- C10: `find_voice_by_name` in both backends resolves the queried name
against a voice whose name equals the query ignoring letter case, returns
`None` when the listing failed (`none` input) and `None` when no voice
matches; the function is total, so no error escapes. -/
theorem C10_find_voice_by_name (respE : Option ElevenLabsTTS.VoicesResponse)
    (respA : Option AzureTTS.AzureVoicesResponse) (q : String) :
    ((∀ id, ElevenLabsTTS.find_voice_by_name respE q = some id →
        ∃ r, respE = some r ∧ ∃ v ∈ r.voices, strLower v.name = strLower q ∧ v.voice_id = id) ∧
      (respE = none → ElevenLabsTTS.find_voice_by_name respE q = none) ∧
      (∀ r, respE = some r → (∀ v ∈ r.voices, strLower v.name ≠ strLower q) →
        ElevenLabsTTS.find_voice_by_name respE q = none)) ∧
    ((∀ id, AzureTTS.find_voice_by_name respA q = some id →
        ∃ r, respA = some r ∧ ∃ v ∈ r.voices, strLower v.name = strLower q ∧ v.voice_id = id) ∧
      (respA = none → AzureTTS.find_voice_by_name respA q = none) ∧
      (∀ r, respA = some r → (∀ v ∈ r.voices, strLower v.name ≠ strLower q) →
        AzureTTS.find_voice_by_name respA q = none)) := by
  constructor
  · refine ⟨?_, ?_, ?_⟩
    · intro id h
      cases respE with
      | none => simp [ElevenLabsTTS.find_voice_by_name] at h
      | some r =>
        simp only [ElevenLabsTTS.find_voice_by_name, Option.map_eq_some'] at h
        obtain ⟨v, hv, hid⟩ := h
        have hbeq : strLower v.name = strLower q := by
          have hp := List.find?_some hv
          simp only [beq_iff_eq] at hp
          exact hp
        exact ⟨r, rfl, v, List.mem_of_find?_eq_some hv, hbeq, hid⟩
    · rintro rfl
      rfl
    · rintro r rfl hno
      simp only [ElevenLabsTTS.find_voice_by_name, Option.map_eq_none']
      rw [List.find?_eq_none]
      intro v hv
      exact fun hbeq => hno v hv (eq_of_beq hbeq)
  · refine ⟨?_, ?_, ?_⟩
    · intro id h
      cases respA with
      | none => simp [AzureTTS.find_voice_by_name] at h
      | some r =>
        simp only [AzureTTS.find_voice_by_name, Option.map_eq_some'] at h
        obtain ⟨v, hv, hid⟩ := h
        have hbeq : strLower v.name = strLower q := by
          have hp := List.find?_some hv
          simp only [beq_iff_eq] at hp
          exact hp
        exact ⟨r, rfl, v, List.mem_of_find?_eq_some hv, hbeq, hid⟩
    · rintro rfl
      rfl
    · rintro r rfl hno
      simp only [AzureTTS.find_voice_by_name, Option.map_eq_none']
      rw [List.find?_eq_none]
      intro v hv
      exact fun hbeq => hno v hv (eq_of_beq hbeq)

/-- Witness for C10: on a concrete listing the theorem yields the
case-insensitive match, and on a failed listing it yields `None`. -/
theorem C10_find_voice_by_name_witness :
    (∃ r, (some (ElevenLabsTTS.VoicesResponse.mk [⟨"Aria", "id1"⟩]) :
          Option ElevenLabsTTS.VoicesResponse) = some r ∧
        ∃ v ∈ r.voices, strLower v.name = strLower "ARIA" ∧ v.voice_id = "id1") ∧
    AzureTTS.find_voice_by_name none "Jenny" = none := by
  constructor
  · exact (C10_find_voice_by_name (some ⟨[⟨"Aria", "id1"⟩]⟩) none "ARIA").1.1 "id1" (by decide)
  · exact (C10_find_voice_by_name (some ⟨[⟨"Aria", "id1"⟩]⟩)
      (none : Option AzureTTS.AzureVoicesResponse) "Jenny").2.2.1 rfl

/-- C7: the filename-derivation function of the parser is deterministic (a
pure function of the title), agrees with the spec's description (remove
non-word/space/hyphen characters, lowercase, trim, collapse separator runs
to single underscores, append `.mp3`), and maps the title
`"Intro: Welcome!"` to `"intro_welcome.mp3"`. -/
theorem C7_generate_filename_matches_spec :
    (∀ title : String,
      MarkdownParser.generate_filename_from_title title = specFilenameFromTitle title) ∧
    MarkdownParser.generate_filename_from_title "Intro: Welcome!" = "intro_welcome.mp3" := by
  constructor
  · intro title
    unfold MarkdownParser.generate_filename_from_title specFilenameFromTitle
    rw [trimChars_map_pyLower]
  · decide

/-! ### Orchestrator lemmas -/


theorem processSegments_ok (backend : Backend) (dv : String) :
    ∀ (segs : List VoiceSegment) (st st' : RunState) (succ : List Bool) (tmps : List Nat),
      processSegments backend dv st segs = .ok (st', succ, tmps) →
      ∃ outs : List SynthOutcome,
        st'.trace = st.trace ++ outs ∧
        st'.temps = st.temps ++ List.range' st.trace.length outs.length ∧
        st'.existing = st.existing ∧
        st'.results = st.results ∧
        SynthOutcome.exn ∉ outs ∧
        succ = outs.map (fun o => decide (o = SynthOutcome.ok)) ∧
        (∀ t, t ∈ tmps ↔ ∃ i, outs.get? i = some SynthOutcome.ok ∧ t = st.trace.length + i) := by
  intro segs
  induction segs with
  | nil =>
    intro st st' succ tmps h
    simp only [processSegments, Except.ok.injEq] at h
    obtain ⟨rfl, rfl, rfl⟩ := h
    refine ⟨[], by simp, by simp [List.range'], rfl, rfl, by simp, rfl, ?_⟩
    intro t
    simp
  | cons seg rest ih =>
    intro st st' succ tmps h
    by_cases hemp : (trimChars seg.text.data).isEmpty
    · rw [processSegments, if_pos hemp] at h
      exact ih st st' succ tmps h
    · rw [processSegments, if_neg hemp] at h
      simp only [] at h
      generalize hout : backend st.trace.length seg.text
          (if seg.voice = "" then dv else seg.voice) = out at h
      cases out with
      | exn => exact absurd h (by simp)
      | ok =>
        cases hrec : processSegments backend dv
            { existing := st.existing, temps := st.temps ++ [st.trace.length],
              trace := st.trace ++ [SynthOutcome.ok], results := st.results } rest with
        | error e =>
          rw [hrec] at h
          exact absurd h (by simp)
        | ok triple =>
          obtain ⟨st'', succ', tmps'⟩ := triple
          rw [hrec] at h
          simp only [Except.ok.injEq, Prod.mk.injEq] at h
          obtain ⟨rfl, rfl, rfl⟩ := h
          obtain ⟨outs', htr, htm, hex, hres, hnx, hsu, htp⟩ :=
            ih _ st'' succ' tmps' hrec
          simp only [List.append_assoc, List.singleton_append, List.length_append,
            List.length_cons, List.length_nil] at htr htm htp
          refine ⟨SynthOutcome.ok :: outs', ?_, ?_, ?_, ?_, ?_, ?_, ?_⟩
          · rw [htr]
          · rw [htm]
            simp only [List.length_cons, List.range'_succ]
          · exact hex
          · exact hres
          · simp only [List.mem_cons]
            rintro (hc | hc)
            · exact SynthOutcome.noConfusion hc
            · exact hnx hc
          · simp [hsu]
          · intro t
            constructor
            · intro ht
              rcases List.mem_cons.mp ht with rfl | ht
              · exact ⟨0, by simp⟩
              · obtain ⟨i, hgi, hti⟩ := (htp t).mp ht
                exact ⟨i + 1, by simpa using hgi, by omega⟩
            · rintro ⟨i, hgi, rfl⟩
              cases i with
              | zero => simp
              | succ j =>
                simp only [List.get?_cons_succ] at hgi
                have hm := (htp (st.trace.length + (j + 1))).mpr ⟨j, hgi, by omega⟩
                exact List.mem_cons_of_mem _ hm
      | fail =>
        cases hrec : processSegments backend dv
            { existing := st.existing, temps := st.temps ++ [st.trace.length],
              trace := st.trace ++ [SynthOutcome.fail], results := st.results } rest with
        | error e =>
          rw [hrec] at h
          exact absurd h (by simp)
        | ok triple =>
          obtain ⟨st'', succ', tmps'⟩ := triple
          rw [hrec] at h
          simp only [Except.ok.injEq, Prod.mk.injEq] at h
          obtain ⟨rfl, rfl, rfl⟩ := h
          obtain ⟨outs', htr, htm, hex, hres, hnx, hsu, htp⟩ :=
            ih _ st'' succ' tmps' hrec
          simp only [List.append_assoc, List.singleton_append, List.length_append,
            List.length_cons, List.length_nil] at htr htm htp
          refine ⟨SynthOutcome.fail :: outs', ?_, ?_, ?_, ?_, ?_, ?_, ?_⟩
          · rw [htr]
          · rw [htm]
            simp only [List.length_cons, List.range'_succ]
          · exact hex
          · exact hres
          · simp only [List.mem_cons]
            rintro (hc | hc)
            · exact SynthOutcome.noConfusion hc
            · exact hnx hc
          · simp [hsu]
          · intro t
            constructor
            · intro ht
              obtain ⟨i, hgi, hti⟩ := (htp t).mp ht
              exact ⟨i + 1, by simpa using hgi, by omega⟩
            · rintro ⟨i, hgi, rfl⟩
              cases i with
              | zero => simp at hgi
              | succ j =>
                simp only [List.get?_cons_succ] at hgi
                exact (htp (st.trace.length + (j + 1))).mpr ⟨j, hgi, by omega⟩

theorem processSegments_no_exn (backend : Backend) (dv : String)
    (hne : ∀ k t v, backend k t v ≠ SynthOutcome.exn) :
    ∀ (segs : List VoiceSegment) (st : RunState),
      ∃ out, processSegments backend dv st segs = .ok out := by
  intro segs
  induction segs with
  | nil => exact fun st => ⟨(st, [], []), rfl⟩
  | cons seg rest ih =>
    intro st
    by_cases hemp : (trimChars seg.text.data).isEmpty
    · obtain ⟨out, hout⟩ := ih st
      exact ⟨out, by rw [processSegments, if_pos hemp]; exact hout⟩
    · rw [processSegments, if_neg hemp]
      simp only []
      cases houtc : backend st.trace.length seg.text
          (if seg.voice = "" then dv else seg.voice) with
      | exn => exact absurd houtc (hne _ _ _)
      | ok =>
        obtain ⟨⟨st', succ, tmps⟩, hrec⟩ := ih
          { st with temps := st.temps ++ [st.trace.length],
                    trace := st.trace ++ [SynthOutcome.ok] }
        exact ⟨(st', true :: succ, st.trace.length :: tmps), by rw [hrec]⟩
      | fail =>
        obtain ⟨⟨st', succ, tmps⟩, hrec⟩ := ih
          { st with temps := st.temps ++ [st.trace.length],
                    trace := st.trace ++ [SynthOutcome.fail] }
        exact ⟨(st', false :: succ, tmps), by rw [hrec]⟩

theorem processSection_skip (backend : Backend) (dv : String) (od : String)
    (st : RunState) (s : MarkdownSection)
    (h : st.existing.contains (outputPath od s.file_path) = true) :
    processSection backend dv false od st s =
      .ok { st with results := dictUpdate st.results (outputPath od s.file_path) true } := by
  rw [processSection]
  simp only [h]
  rfl

theorem processSection_ok_results (backend : Backend) (dv : String) (ow : Bool)
    (od : String) (st : RunState) (s : MarkdownSection) (st' : RunState)
    (h : processSection backend dv ow od st s = .ok st') :
    ∃ b, st'.results = dictUpdate st.results (outputPath od s.file_path) b := by
  rw [processSection] at h
  by_cases hcond : (!ow && st.existing.contains (outputPath od s.file_path)) = true
  · rw [if_pos hcond] at h
    simp only [Except.ok.injEq] at h
    exact ⟨true, by rw [← h]⟩
  · rw [if_neg hcond] at h
    cases hseg : processSegments backend dv st s.segments with
    | error e =>
      rw [hseg] at h
      exact absurd h (by simp)
    | ok triple =>
      obtain ⟨st'', succ, tmps⟩ := triple
      rw [hseg] at h
      simp only [] at h
      obtain ⟨outs, htr, htm, hex, hres, hnx, hsu, htp⟩ :=
        processSegments_ok backend dv s.segments st st'' succ tmps hseg
      by_cases hall : ((succ.all fun b => b) && !tmps.isEmpty) = true
      · rw [if_pos hall] at h
        simp only [Except.ok.injEq] at h
        exact ⟨true, by rw [← h]; simp [hres]⟩
      · rw [if_neg hall] at h
        simp only [Except.ok.injEq] at h
        exact ⟨false, by rw [← h]; simp [hres]⟩

/-- C2: for every section, if the run of that section completes normally and
at least one of its synthesis calls reported failure, then the orchestrator
records the section's output path as `false` in the result map and writes
no final output artifact (the set of existing artifacts is unchanged).
The calls made for the section are the trace entries added by it. -/
theorem C2_failed_segment_fails_section (backend : Backend) (dv : String) (ow : Bool)
    (od : String) (st : RunState) (s : MarkdownSection) (st' : RunState)
    (hok : processSection backend dv ow od st s = .ok st')
    (hfail : SynthOutcome.fail ∈ st'.trace.drop st.trace.length) :
    dictLookup st'.results (outputPath od s.file_path) = some false ∧
    st'.existing = st.existing := by
  rw [processSection] at hok
  by_cases hcond : (!ow && st.existing.contains (outputPath od s.file_path)) = true
  · rw [if_pos hcond] at hok
    simp only [Except.ok.injEq] at hok
    rw [← hok] at hfail
    simp only [List.drop_length] at hfail
    exact absurd hfail (List.not_mem_nil _)
  · rw [if_neg hcond] at hok
    cases hseg : processSegments backend dv st s.segments with
    | error e =>
      rw [hseg] at hok
      exact absurd hok (by simp)
    | ok triple =>
      obtain ⟨st'', succ, tmps⟩ := triple
      rw [hseg] at hok
      simp only [] at hok
      obtain ⟨outs, htr, htm, hex, hres, hnx, hsu, htp⟩ :=
        processSegments_ok backend dv s.segments st st'' succ tmps hseg
      by_cases hall : ((succ.all fun b => b) && !tmps.isEmpty) = true
      · exfalso
        rw [if_pos hall] at hok
        simp only [Except.ok.injEq] at hok
        have htrace : st'.trace = st.trace ++ outs := by
          rw [← hok]
          exact htr
        rw [htrace, List.drop_left] at hfail
        have hmem : (false : Bool) ∈ succ := by
          rw [hsu]
          have := List.mem_map_of_mem (fun o => decide (o = SynthOutcome.ok)) hfail
          simpa using this
        have hall1 : (succ.all fun b => b) = true := (Bool.and_eq_true _ _).mp hall |>.1
        have := (List.all_eq_true.mp hall1) false hmem
        simp at this
      · rw [if_neg hall] at hok
        simp only [Except.ok.injEq] at hok
        constructor
        · rw [← hok]
          simp only []
          rw [hres]
          exact dictLookup_dictUpdate_self st.results (outputPath od s.file_path) false
        · rw [← hok]
          simp only []
          exact hex

/-- Witness for C2: a one-segment section whose synthesis call fails is
recorded as `false` and no artifact appears. -/
theorem C2_failed_segment_fails_section_witness :
    dictLookup (RunState.mk [] [0] [SynthOutcome.fail] [("out/a.mp3", false)]).results
        (outputPath "out" "a.mp3") = some false ∧
    (RunState.mk [] [0] [SynthOutcome.fail] [("out/a.mp3", false)]).existing =
      (RunState.mk [] [] [] []).existing :=
  C2_failed_segment_fails_section (fun _ _ _ => SynthOutcome.fail) "v" false "out"
    (RunState.mk [] [] [] []) (MarkdownSection.mk "S" "a.mp3" [VoiceSegment.mk "" "hi"])
    (RunState.mk [] [0] [SynthOutcome.fail] [("out/a.mp3", false)])
    (by decide) (by decide)

theorem runSections_allskip (backend : Backend) (dv od : String) :
    ∀ (l : List MarkdownSection) (st : RunState),
      (∀ s ∈ l, st.existing.contains (outputPath od s.file_path) = true) →
      ∃ st', runSections backend dv false od st l = .ok st' ∧
        st'.trace = st.trace ∧ st'.temps = st.temps ∧ st'.existing = st.existing ∧
        (∀ p, dictLookup st.results p = some true → dictLookup st'.results p = some true) ∧
        (∀ s ∈ l, dictLookup st'.results (outputPath od s.file_path) = some true) := by
  intro l
  induction l with
  | nil =>
    intro st _
    exact ⟨st, rfl, rfl, rfl, rfl, fun _ h => h, by simp⟩
  | cons s rest ih =>
    intro st h
    have hskip := processSection_skip backend dv od st s (h s (List.mem_cons_self s rest))
    obtain ⟨st', hrun, htr, htm, hex, hpres, hall⟩ :=
      ih { st with results := dictUpdate st.results (outputPath od s.file_path) true }
        (fun s' hs' => h s' (List.mem_cons_of_mem s hs'))
    refine ⟨st', ?_, htr, htm, hex, ?_, ?_⟩
    · rw [runSections, hskip]
      exact hrun
    · intro p hp
      exact hpres p (dictLookup_dictUpdate_true_pres st.results (outputPath od s.file_path) p hp)
    · intro s' hs'
      rcases List.mem_cons.mp hs' with rfl | hs'
      · exact hpres _ (dictLookup_dictUpdate_self st.results (outputPath od s'.file_path) true)
      · exact hall s' hs'

/-- C3: (a) for every section whose output path already exists on disk
and `overwrite_audio = false`, the orchestrator records success for that
path and performs no synthesis call, creates no temporary file and writes
nothing — the state is unchanged except for the recorded result; (b) hence
a second run with `overwrite_audio = false` over sections whose outputs the
first run left on disk makes no synthesis call at all (its trace is the
first run's trace) and reports `true` for every section's output path. -/
theorem C3_skip_existing_idempotent :
    (∀ (backend : Backend) (dv od : String) (st : RunState) (s : MarkdownSection),
      st.existing.contains (outputPath od s.file_path) = true →
      processSection backend dv false od st s =
        .ok { st with results := dictUpdate st.results (outputPath od s.file_path) true }) ∧
    (∀ (b1 b2 : Backend) (dv1 dv2 od : String) (st0 : RunState)
        (sections : List MarkdownSection),
      (∀ s ∈ sections,
        (runOrchestrator b1 dv1 false od st0 sections).existing.contains
          (outputPath od s.file_path) = true) →
      (runOrchestrator b2 dv2 false od (runOrchestrator b1 dv1 false od st0 sections)
          sections).trace = (runOrchestrator b1 dv1 false od st0 sections).trace ∧
      (runOrchestrator b2 dv2 false od (runOrchestrator b1 dv1 false od st0 sections)
          sections).temps = (runOrchestrator b1 dv1 false od st0 sections).temps ∧
      (runOrchestrator b2 dv2 false od (runOrchestrator b1 dv1 false od st0 sections)
          sections).existing = (runOrchestrator b1 dv1 false od st0 sections).existing ∧
      ∀ s ∈ sections,
        dictLookup (runOrchestrator b2 dv2 false od
            (runOrchestrator b1 dv1 false od st0 sections) sections).results
          (outputPath od s.file_path) = some true) := by
  constructor
  · exact processSection_skip
  · intro b1 b2 dv1 dv2 od st0 sections hex
    by_cases hsec : sections.isEmpty
    · have hnil : sections = [] := List.isEmpty_iff.mp hsec
      subst hnil
      refine ⟨?_, ?_, ?_, ?_⟩ <;> simp [runOrchestrator]
    · obtain ⟨st', hrun, htr, htm, hex', hpres, hall⟩ :=
        runSections_allskip b2 dv2 od sections
          { runOrchestrator b1 dv1 false od st0 sections with results := [] }
          (fun s hs => hex s hs)
      have hrun2 : runOrchestrator b2 dv2 false od
          (runOrchestrator b1 dv1 false od st0 sections) sections = st' := by
        rw [runOrchestrator, if_neg hsec, hrun]
      rw [hrun2]
      exact ⟨htr, htm, hex', hall⟩

/-- Witness for C3: a pre-existing artifact is skipped with success
recorded, and a second identical run after a successful first run reports
`true` with no synthesis call. -/
theorem C3_skip_existing_idempotent_witness :
    processSection (fun _ _ _ => SynthOutcome.ok) "v" false "out"
        (RunState.mk ["out/a.mp3"] [] [] [])
        (MarkdownSection.mk "S" "a.mp3" [VoiceSegment.mk "v" "hi"]) =
      .ok (RunState.mk ["out/a.mp3"] [] [] [("out/a.mp3", true)]) ∧
    dictLookup (runOrchestrator (fun _ _ _ => SynthOutcome.ok) "v" false "out"
        (runOrchestrator (fun _ _ _ => SynthOutcome.ok) "v" false "out"
          (RunState.mk [] [] [] [])
          [MarkdownSection.mk "S" "a.mp3" [VoiceSegment.mk "v" "hi"]])
        [MarkdownSection.mk "S" "a.mp3" [VoiceSegment.mk "v" "hi"]]).results
      (outputPath "out" "a.mp3") = some true := by
  constructor
  · exact C3_skip_existing_idempotent.1 (fun _ _ _ => SynthOutcome.ok) "v" "out"
      (RunState.mk ["out/a.mp3"] [] [] [])
      (MarkdownSection.mk "S" "a.mp3" [VoiceSegment.mk "v" "hi"]) (by decide)
  · exact (C3_skip_existing_idempotent.2 (fun _ _ _ => SynthOutcome.ok)
      (fun _ _ _ => SynthOutcome.ok) "v" "v" "out" (RunState.mk [] [] [] [])
      [MarkdownSection.mk "S" "a.mp3" [VoiceSegment.mk "v" "hi"]]
      (by decide)).2.2.2
      (MarkdownSection.mk "S" "a.mp3" [VoiceSegment.mk "v" "hi"]) (by decide)

/-- The cleanup bookkeeping of one section: starting from a state whose
leftover temporary files are exactly those of earlier failed calls, after
the per-segment synthesis (trace extended by `outs`, a temporary per call)
and removal of the successful calls' temporary files, the leftover
temporary files are again exactly those of failed calls. -/
theorem tempInv_step (st : RunState) (outs : List SynthOutcome) (tmps : List Nat)
    (hnx : SynthOutcome.exn ∉ outs)
    (htp : ∀ t, t ∈ tmps ↔ ∃ i, outs.get? i = some SynthOutcome.ok ∧ t = st.trace.length + i)
    (hinv : ∀ t, t ∈ st.temps ↔ st.trace.get? t = some SynthOutcome.fail) :
    ∀ t, t ∈ removeTemps (st.temps ++ List.range' st.trace.length outs.length) tmps ↔
          (st.trace ++ outs).get? t = some SynthOutcome.fail := by
  intro t
  unfold removeTemps
  rw [List.mem_filter]
  have hcont : ((fun t => !tmps.contains t) t = true) ↔ t ∉ tmps := by
    simp [List.elem_iff]
  rcases Nat.lt_or_ge t st.trace.length with hlt | hge
  · have h1 : (st.trace ++ outs).get? t = st.trace.get? t := List.get?_append hlt
    have ht2 : t ∉ List.range' st.trace.length outs.length := by
      intro hm
      have := List.mem_range'_1.mp hm
      omega
    rw [h1]
    constructor
    · rintro ⟨hmem, _⟩
      rcases List.mem_append.mp hmem with hm | hm
      · exact (hinv t).mp hm
      · exact absurd hm ht2
    · intro hget
      refine ⟨List.mem_append.mpr (Or.inl ((hinv t).mpr hget)), hcont.mpr ?_⟩
      intro hmem
      obtain ⟨i, _, hti⟩ := (htp t).mp hmem
      omega
  · rcases Nat.lt_or_ge t (st.trace.length + outs.length) with hlt2 | hge2
    · have h1 : (st.trace ++ outs).get? t = outs.get? (t - st.trace.length) :=
        List.get?_append_right hge
      have hmemr : t ∈ List.range' st.trace.length outs.length :=
        List.mem_range'_1.mpr ⟨hge, hlt2⟩
      have htst : t ∉ st.temps := by
        intro hm
        have hsome := (hinv t).mp hm
        rw [List.get?_eq_some] at hsome
        obtain ⟨hb, _⟩ := hsome
        omega
      obtain ⟨o, ho⟩ : ∃ o, outs.get? (t - st.trace.length) = some o := by
        cases hq : outs.get? (t - st.trace.length) with
        | none =>
          rw [List.get?_eq_none] at hq
          omega
        | some o => exact ⟨o, rfl⟩
      have honx : o ≠ SynthOutcome.exn := by
        intro he
        exact hnx (he ▸ List.get?_mem ho)
      rw [h1, ho]
      constructor
      · rintro ⟨_, hnc⟩
        have hnt : t ∉ tmps := hcont.mp hnc
        have hno : ¬ o = SynthOutcome.ok := by
          intro heo
          apply hnt
          refine (htp t).mpr ⟨t - st.trace.length, by rw [ho, heo], by omega⟩
        cases o with
        | ok => exact absurd rfl hno
        | fail => rfl
        | exn => exact absurd rfl honx
      · intro hEq
        have ho' : o = SynthOutcome.fail := by
          injection hEq
        subst ho'
        refine ⟨List.mem_append.mpr (Or.inr hmemr), hcont.mpr ?_⟩
        intro hmem
        obtain ⟨i, hgi, hti⟩ := (htp t).mp hmem
        have hieq : i = t - st.trace.length := by omega
        rw [hieq, ho] at hgi
        exact SynthOutcome.noConfusion (Option.some.injEq _ _ ▸ hgi)
    · have h1 : (st.trace ++ outs).get? t = none := by
        rw [List.get?_eq_none]
        simp only [List.length_append]
        omega
      rw [h1]
      constructor
      · rintro ⟨hmem, _⟩
        rcases List.mem_append.mp hmem with hm | hm
        · have hsome := (hinv t).mp hm
          rw [List.get?_eq_some] at hsome
          obtain ⟨hb, _⟩ := hsome
          omega
        · have := List.mem_range'_1.mp hm
          omega
      · intro hcontra
        exact absurd hcontra (by simp)

theorem processSection_tempInv (backend : Backend) (dv : String) (ow : Bool)
    (od : String) (st : RunState) (s : MarkdownSection) (st' : RunState)
    (hok : processSection backend dv ow od st s = .ok st')
    (hinv : ∀ t, t ∈ st.temps ↔ st.trace.get? t = some SynthOutcome.fail) :
    ∀ t, t ∈ st'.temps ↔ st'.trace.get? t = some SynthOutcome.fail := by
  rw [processSection] at hok
  by_cases hcond : (!ow && st.existing.contains (outputPath od s.file_path)) = true
  · rw [if_pos hcond] at hok
    simp only [Except.ok.injEq] at hok
    rw [← hok]
    exact hinv
  · rw [if_neg hcond] at hok
    cases hseg : processSegments backend dv st s.segments with
    | error e =>
      rw [hseg] at hok
      exact absurd hok (by simp)
    | ok triple =>
      obtain ⟨st'', succ, tmps⟩ := triple
      rw [hseg] at hok
      simp only [] at hok
      obtain ⟨outs, htr, htm, hex, hres, hnx, hsu, htp⟩ :=
        processSegments_ok backend dv s.segments st st'' succ tmps hseg
      have key := tempInv_step st outs tmps hnx htp hinv
      by_cases hall : ((succ.all fun b => b) && !tmps.isEmpty) = true
      · rw [if_pos hall] at hok
        simp only [Except.ok.injEq] at hok
        rw [← hok]
        intro t
        simp only []
        rw [htm, htr]
        exact key t
      · rw [if_neg hall] at hok
        simp only [Except.ok.injEq] at hok
        rw [← hok]
        intro t
        simp only []
        rw [htm, htr]
        exact key t

theorem processSection_no_exn (backend : Backend) (dv : String) (ow : Bool)
    (od : String) (hne : ∀ k t v, backend k t v ≠ SynthOutcome.exn)
    (st : RunState) (s : MarkdownSection) :
    ∃ st', processSection backend dv ow od st s = .ok st' := by
  rw [processSection]
  by_cases hcond : (!ow && st.existing.contains (outputPath od s.file_path)) = true
  · rw [if_pos hcond]
    exact ⟨_, rfl⟩
  · rw [if_neg hcond]
    obtain ⟨⟨st'', succ, tmps⟩, hseg⟩ := processSegments_no_exn backend dv hne s.segments st
    rw [hseg]
    simp only []
    by_cases hall : ((succ.all fun b => b) && !tmps.isEmpty) = true
    · rw [if_pos hall]
      exact ⟨_, rfl⟩
    · rw [if_neg hall]
      exact ⟨_, rfl⟩

theorem runSections_no_exn_tempInv (backend : Backend) (dv : String) (ow : Bool)
    (od : String) (hne : ∀ k t v, backend k t v ≠ SynthOutcome.exn) :
    ∀ (l : List MarkdownSection) (st : RunState),
      (∀ t, t ∈ st.temps ↔ st.trace.get? t = some SynthOutcome.fail) →
      ∃ st', runSections backend dv ow od st l = .ok st' ∧
        (∀ t, t ∈ st'.temps ↔ st'.trace.get? t = some SynthOutcome.fail) := by
  intro l
  induction l with
  | nil => exact fun st hinv => ⟨st, rfl, hinv⟩
  | cons s rest ih =>
    intro st hinv
    obtain ⟨st1, hsec⟩ := processSection_no_exn backend dv ow od hne st s
    obtain ⟨st', hrun, hinv'⟩ := ih st1
      (processSection_tempInv backend dv ow od st s st1 hsec hinv)
    exact ⟨st', by rw [runSections, hsec]; exact hrun, hinv'⟩

/-- C4 (amended): after a run in which no synthesis call raises, the
temporary artifacts still on disk are exactly those created for calls that
reported failure — every successful segment's temporary artifact has been
removed, on the success path and the failure path of its section alike. -/
theorem C4_cleanup_of_successful_temps (backend : Backend) (dv : String)
    (ow : Bool) (od : String) (st0 : RunState) (sections : List MarkdownSection)
    (hne : ∀ k t v, backend k t v ≠ SynthOutcome.exn)
    (htemps : st0.temps = []) (htrace : st0.trace = []) :
    ∀ t, t ∈ (runOrchestrator backend dv ow od st0 sections).temps ↔
      (runOrchestrator backend dv ow od st0 sections).trace.get? t =
        some SynthOutcome.fail := by
  rw [runOrchestrator]
  by_cases hsec : sections.isEmpty
  · rw [if_pos hsec]
    intro t
    simp [htemps, htrace]
  · rw [if_neg hsec]
    have hinv0 : ∀ t, t ∈ (RunState.mk st0.existing st0.temps st0.trace []).temps ↔
        (RunState.mk st0.existing st0.temps st0.trace []).trace.get? t =
          some SynthOutcome.fail := by
      intro t
      simp [htemps, htrace]
    obtain ⟨st', hrun, hinv⟩ :=
      runSections_no_exn_tempInv backend dv ow od hne sections
        (RunState.mk st0.existing st0.temps st0.trace []) hinv0
    rw [hrun]
    exact hinv

/-- Counterexample to C4 as stated: one section with one segment whose
synthesis call fails; the temporary file created for the failed call
(file `0`, created before the call) is still on disk when the run returns,
so not every temporary artifact created during the run was removed. -/
theorem C4_counterexample :
    (runOrchestrator (fun _ _ _ => SynthOutcome.fail) "v" false "out"
        (RunState.mk [] [] [] [])
        [MarkdownSection.mk "S" "a.mp3" [VoiceSegment.mk "" "hi"]]).temps = [0] ∧
    (runOrchestrator (fun _ _ _ => SynthOutcome.fail) "v" false "out"
        (RunState.mk [] [] [] [])
        [MarkdownSection.mk "S" "a.mp3" [VoiceSegment.mk "" "hi"]]).trace =
      [SynthOutcome.fail] := by
  decide

/-- Witness for C4: the amended theorem applied to the failing one-segment
run: the leftover temporary file `0` corresponds to the failed call `0`. -/
theorem C4_cleanup_of_successful_temps_witness :
    0 ∈ (runOrchestrator (fun _ _ _ => SynthOutcome.fail) "v" false "out"
        (RunState.mk [] [] [] [])
        [MarkdownSection.mk "S" "a.mp3" [VoiceSegment.mk "" "hi"]]).temps ↔
      (runOrchestrator (fun _ _ _ => SynthOutcome.fail) "v" false "out"
        (RunState.mk [] [] [] [])
        [MarkdownSection.mk "S" "a.mp3" [VoiceSegment.mk "" "hi"]]).trace.get? 0 =
        some SynthOutcome.fail :=
  C4_cleanup_of_successful_temps (fun _ _ _ => SynthOutcome.fail) "v" false "out"
    (RunState.mk [] [] [] []) [MarkdownSection.mk "S" "a.mp3" [VoiceSegment.mk "" "hi"]]
    (fun _ _ _ h => SynthOutcome.noConfusion h) rfl rfl 0

theorem runSections_no_exn (backend : Backend) (dv : String) (ow : Bool)
    (od : String) (hne : ∀ k t v, backend k t v ≠ SynthOutcome.exn) :
    ∀ (l : List MarkdownSection) (st : RunState),
      ∃ st', runSections backend dv ow od st l = .ok st' := by
  intro l
  induction l with
  | nil => exact fun st => ⟨st, rfl⟩
  | cons s rest ih =>
    intro st
    obtain ⟨st1, hsec⟩ := processSection_no_exn backend dv ow od hne st s
    obtain ⟨st', hrun⟩ := ih st1
    exact ⟨st', by rw [runSections, hsec]; exact hrun⟩

theorem runSections_keys (backend : Backend) (dv : String) (ow : Bool) (od : String) :
    ∀ (l : List MarkdownSection) (st st' : RunState),
      runSections backend dv ow od st l = .ok st' →
      ((st.results.map Prod.fst).Nodup → (st'.results.map Prod.fst).Nodup) ∧
      (∀ p, p ∈ st'.results.map Prod.fst ↔
        p ∈ st.results.map Prod.fst ∨ ∃ s ∈ l, outputPath od s.file_path = p) := by
  intro l
  induction l with
  | nil =>
    intro st st' h
    simp only [runSections, Except.ok.injEq] at h
    subst h
    exact ⟨id, fun p => by simp⟩
  | cons s rest ih =>
    intro st st' h
    rw [runSections] at h
    cases hsec : processSection backend dv ow od st s with
    | error e =>
      rw [hsec] at h
      exact absurd h (by simp)
    | ok st1 =>
      rw [hsec] at h
      obtain ⟨b, hres1⟩ := processSection_ok_results backend dv ow od st s st1 hsec
      obtain ⟨hnod, hmem⟩ := ih st1 st' h
      constructor
      · intro hn
        apply hnod
        rw [hres1]
        exact nodup_keys_dictUpdate st.results (outputPath od s.file_path) b hn
      · intro p
        rw [hmem p, hres1, mem_keys_dictUpdate]
        constructor
        · rintro ((hp | rfl) | ⟨s', hs', hp⟩)
          · exact Or.inl hp
          · exact Or.inr ⟨s, List.mem_cons_self s rest, rfl⟩
          · exact Or.inr ⟨s', List.mem_cons_of_mem s hs', hp⟩
        · rintro (hp | ⟨s', hs', hp⟩)
          · exact Or.inl (Or.inl hp)
          · rcases List.mem_cons.mp hs' with rfl | hs'
            · exact Or.inl (Or.inr hp.symm)
            · exact Or.inr ⟨s', hs', hp⟩

theorem runOrchestrator_entries_of_ok (backend : Backend) (dv : String) (ow : Bool)
    (od : String) (st0 : RunState) (sections : List MarkdownSection) (st' : RunState)
    (hrun : runSections backend dv ow od
      (RunState.mk st0.existing st0.temps st0.trace []) sections = .ok st') :
    ∀ s ∈ sections, ∃ b,
      dictLookup st'.results (outputPath od s.file_path) = some b := by
  intro s hs
  obtain ⟨_, hmem⟩ := runSections_keys backend dv ow od sections
    (RunState.mk st0.existing st0.temps st0.trace []) st' hrun
  apply mem_keys_exists_dictLookup
  rw [hmem]
  exact Or.inr ⟨s, hs, rfl⟩

/-- C5 (amended): the orchestrator never raises past its boundary — it
always returns a result map.  When no synthesis call raises, it processes
every section (a section's failure flag never aborts the rest) and the map
holds an entry for every section's output path.  When a synthesis call
raises, the function-level handler catches it, abandons the remaining
sections, and returns an empty map instead of propagating the exception:
for every backend, the returned map is either empty or has an entry for
every section's output path. -/
theorem C5_failure_isolation (backend : Backend) (dv : String) (ow : Bool)
    (od : String) (st0 : RunState) (sections : List MarkdownSection) :
    ((∀ k t v, backend k t v ≠ SynthOutcome.exn) →
      ∀ s ∈ sections, ∃ b,
        dictLookup (runOrchestrator backend dv ow od st0 sections).results
          (outputPath od s.file_path) = some b) ∧
    ((runOrchestrator backend dv ow od st0 sections).results = [] ∨
      ∀ s ∈ sections, ∃ b,
        dictLookup (runOrchestrator backend dv ow od st0 sections).results
          (outputPath od s.file_path) = some b) := by
  rw [runOrchestrator]
  by_cases hsec : sections.isEmpty
  · rw [if_pos hsec]
    have hnil : sections = [] := List.isEmpty_iff.mp hsec
    subst hnil
    exact ⟨fun _ s hs => absurd hs (List.not_mem_nil s), Or.inl rfl⟩
  · rw [if_neg hsec]
    cases hrun : runSections backend dv ow od
        (RunState.mk st0.existing st0.temps st0.trace []) sections with
    | error e =>
      exact ⟨fun hne => absurd hrun (by
        obtain ⟨st', h⟩ := runSections_no_exn backend dv ow od hne sections
          (RunState.mk st0.existing st0.temps st0.trace [])
        rw [h]
        simp), Or.inl rfl⟩
    | ok st' =>
      exact ⟨fun _ => runOrchestrator_entries_of_ok backend dv ow od st0 sections st' hrun,
        Or.inr (runOrchestrator_entries_of_ok backend dv ow od st0 sections st' hrun)⟩

/-- Counterexample to C5 as stated: a backend whose synthesize call raises
on the first segment.  The orchestrator's function-level handler returns an
empty map: the second section is never processed and has no entry, so a
raised exception does abort the processing of the remaining sections
(though nothing propagates past the boundary). -/
theorem C5_counterexample :
    (runOrchestrator (fun _ _ _ => SynthOutcome.exn) "v" false "out"
        (RunState.mk [] [] [] [])
        [MarkdownSection.mk "S" "a.mp3" [VoiceSegment.mk "" "hi"],
         MarkdownSection.mk "T" "b.mp3" [VoiceSegment.mk "" "yo"]]).results = [] ∧
    dictLookup (runOrchestrator (fun _ _ _ => SynthOutcome.exn) "v" false "out"
        (RunState.mk [] [] [] [])
        [MarkdownSection.mk "S" "a.mp3" [VoiceSegment.mk "" "hi"],
         MarkdownSection.mk "T" "b.mp3" [VoiceSegment.mk "" "yo"]]).results
      (outputPath "out" "b.mp3") = none := by
  decide

/-- Witness for C5: with a backend that fails (returns `False`) on the first
call and succeeds afterwards, the second section still gets an entry. -/
theorem C5_failure_isolation_witness :
    ∃ b, dictLookup (runOrchestrator
        (fun k _ _ => if k = 0 then SynthOutcome.fail else SynthOutcome.ok) "v" false "out"
        (RunState.mk [] [] [] [])
        [MarkdownSection.mk "S" "a.mp3" [VoiceSegment.mk "" "hi"],
         MarkdownSection.mk "T" "b.mp3" [VoiceSegment.mk "" "yo"]]).results
      (outputPath "out" "b.mp3") = some b := by
  refine (C5_failure_isolation
      (fun k _ _ => if k = 0 then SynthOutcome.fail else SynthOutcome.ok) "v" false "out"
      (RunState.mk [] [] [] [])
      [MarkdownSection.mk "S" "a.mp3" [VoiceSegment.mk "" "hi"],
       MarkdownSection.mk "T" "b.mp3" [VoiceSegment.mk "" "yo"]]).1 ?_
      (MarkdownSection.mk "T" "b.mp3" [VoiceSegment.mk "" "yo"]) (by decide)
  intro k t v h
  split at h <;> exact SynthOutcome.noConfusion h

/-- C9 (amended): for every run in which no synthesis call raises, the
result map has exactly one entry per distinct output path of the processed
sections: its keys are duplicate-free, and a path is a key exactly when it
is some section's output path.  Two sections sharing an output path
therefore share one entry (the later outcome overwrites the earlier). -/
theorem C9_one_entry_per_distinct_path (backend : Backend) (dv : String) (ow : Bool)
    (od : String) (st0 : RunState) (sections : List MarkdownSection)
    (hne : ∀ k t v, backend k t v ≠ SynthOutcome.exn) :
    (((runOrchestrator backend dv ow od st0 sections).results.map Prod.fst).Nodup) ∧
    (∀ p, p ∈ (runOrchestrator backend dv ow od st0 sections).results.map Prod.fst ↔
      ∃ s ∈ sections, outputPath od s.file_path = p) := by
  rw [runOrchestrator]
  by_cases hsec : sections.isEmpty
  · rw [if_pos hsec]
    have hnil : sections = [] := List.isEmpty_iff.mp hsec
    subst hnil
    exact ⟨by simp, fun p => by simp⟩
  · rw [if_neg hsec]
    obtain ⟨st', hrun⟩ := runSections_no_exn backend dv ow od hne sections
      (RunState.mk st0.existing st0.temps st0.trace [])
    rw [hrun]
    obtain ⟨hnod, hmem⟩ := runSections_keys backend dv ow od sections
      (RunState.mk st0.existing st0.temps st0.trace []) st' hrun
    refine ⟨hnod (by simp), fun p => ?_⟩
    rw [hmem p]
    simp

/-- Counterexample to C9 as stated: two distinct sections with equal titles
and equal file paths are processed, yet the returned map has a single
entry, not one entry per section — the second section's skip-if-exists
update lands on the first section's key. -/
theorem C9_counterexample :
    ([MarkdownSection.mk "A" "a.mp3" [VoiceSegment.mk "v" "hi"],
      MarkdownSection.mk "A" "a.mp3" [VoiceSegment.mk "v" "bye"]].length = 2) ∧
    (runOrchestrator (fun _ _ _ => SynthOutcome.ok) "v" false "out"
        (RunState.mk [] [] [] [])
        [MarkdownSection.mk "A" "a.mp3" [VoiceSegment.mk "v" "hi"],
         MarkdownSection.mk "A" "a.mp3" [VoiceSegment.mk "v" "bye"]]).results.length = 1 := by
  decide

/-- Witness for C9: the amended theorem applied to a concrete two-section
run with distinct paths. -/
theorem C9_one_entry_per_distinct_path_witness :
    (((runOrchestrator (fun _ _ _ => SynthOutcome.ok) "v" false "out"
        (RunState.mk [] [] [] [])
        [MarkdownSection.mk "S" "a.mp3" [VoiceSegment.mk "" "hi"],
         MarkdownSection.mk "T" "b.mp3" [VoiceSegment.mk "" "yo"]]).results.map
      Prod.fst).Nodup) ∧
    ("out/b.mp3" ∈ (runOrchestrator (fun _ _ _ => SynthOutcome.ok) "v" false "out"
        (RunState.mk [] [] [] [])
        [MarkdownSection.mk "S" "a.mp3" [VoiceSegment.mk "" "hi"],
         MarkdownSection.mk "T" "b.mp3" [VoiceSegment.mk "" "yo"]]).results.map
      Prod.fst ↔ ∃ s ∈ [MarkdownSection.mk "S" "a.mp3" [VoiceSegment.mk "" "hi"],
         MarkdownSection.mk "T" "b.mp3" [VoiceSegment.mk "" "yo"]],
        outputPath "out" s.file_path = "out/b.mp3") := by
  have h := C9_one_entry_per_distinct_path (fun _ _ _ => SynthOutcome.ok) "v" false "out"
    (RunState.mk [] [] [] [])
    [MarkdownSection.mk "S" "a.mp3" [VoiceSegment.mk "" "hi"],
     MarkdownSection.mk "T" "b.mp3" [VoiceSegment.mk "" "yo"]]
    (fun _ _ _ h => SynthOutcome.noConfusion h)
  exact ⟨h.1, h.2 "out/b.mp3"⟩

/-! ### Inline-parser lemmas -/

theorem stringMk_ne_empty (t : List Char) (h : t ≠ []) : String.mk t ≠ "" := by
  intro he
  apply h
  have hd : (String.mk t).data = ("" : String).data := congrArg String.data he
  simpa using hd

theorem segLoopAux_text_nonempty (aliases : AliasTable) :
    ∀ (fuel : Nat) (s : List Char) (seg : VoiceSegment),
      seg ∈ segLoopAux aliases fuel s → seg.text ≠ "" := by
  intro fuel
  induction fuel with
  | zero =>
    intro s seg h
    exact absurd h (List.not_mem_nil seg)
  | succ n ih =>
    intro s seg h
    rw [segLoopAux] at h
    simp only [] at h
    cases hsp : splitOnFirst voiceMarkerPat
        ((s.dropWhile (fun c => c != ']')).drop 1) with
    | none =>
      rw [hsp] at h
      simp only [] at h
      by_cases hemp : (trimChars ((s.dropWhile (fun c => c != ']')).drop 1)).isEmpty
      · rw [if_pos hemp] at h
        exact absurd h (List.not_mem_nil seg)
      · rw [if_neg hemp] at h
        rcases List.mem_singleton.mp h with rfl
        exact stringMk_ne_empty _ (by
          intro hnil
          exact hemp (by rw [hnil]; rfl))
    | some pair =>
      obtain ⟨txt, rest⟩ := pair
      rw [hsp] at h
      simp only [] at h
      by_cases hemp : (trimChars txt).isEmpty
      · rw [if_pos hemp] at h
        exact ih rest seg h
      · rw [if_neg hemp] at h
        rcases List.mem_cons.mp h with rfl | hmem
        · exact stringMk_ne_empty _ (by
            intro hnil
            exact hemp (by rw [hnil]; rfl))
        · exact ih rest seg hmem

theorem segmentSpan_text_nonempty (aliases : AliasTable) (span : List Char)
    (seg : VoiceSegment) (h : seg ∈ segmentSpan aliases span) : seg.text ≠ "" := by
  rw [segmentSpan] at h
  cases hsp : splitOnFirst voiceMarkerPat span with
  | none =>
    rw [hsp] at h
    exact absurd h (List.not_mem_nil seg)
  | some pair =>
    obtain ⟨before, rest⟩ := pair
    rw [hsp] at h
    exact segLoopAux_text_nonempty aliases (rest.length + 1) rest seg h

theorem segmentSpan_eq_nil_of_no_marker (aliases : AliasTable) (span : List Char)
    (h : splitOnFirst voiceMarkerPat span = none) : segmentSpan aliases span = [] := by
  rw [segmentSpan, h]

theorem mem_process_markdown_sections {text : String} {s : MarkdownSection}
    (hs : s ∈ (process_markdown text).2) :
    ∃ b ∈ groupBlocks (splitLines text.data),
      mkInlineSection (collectAliases (splitLines text.data)) b = some s := by
  simp only [process_markdown] at hs
  exact List.mem_filterMap.mp hs

theorem mkInlineSection_some {aliases : AliasTable} {b : Heading × List (List Char)}
    {s : MarkdownSection} (h : mkInlineSection aliases b = some s) :
    s.segments = segmentSpan aliases (joinLines b.2) ∧ s.segments ≠ [] := by
  rw [mkInlineSection] at h
  by_cases hemp : (segmentSpan aliases (joinLines b.2)).isEmpty
  · rw [if_pos hemp] at h
    exact absurd h (by simp)
  · rw [if_neg hemp] at h
    simp only [Option.some.injEq] at h
    subst h
    refine ⟨rfl, ?_⟩
    intro hnil
    apply hemp
    have hred : segmentSpan aliases (joinLines b.2) = [] := hnil
    rw [hred]
    rfl

/-- C1: the inline-dialect `parse` returns a pair of an alias table and an
ordered section list in which every section carries a nonempty ordered list
of voice segments with nonempty text — the shape the orchestrator consumes.
On the spec's end-to-end document it yields the alias table
`A ↦ Voice1`, one section `S1` with segments `(Voice1, "Hello.")`,
`(Voice2, "World.")` in source order, and feeding the parse result through
the orchestrator with an always-succeeding backend produces the success map
for the section's output file. -/
theorem C1_parse_contract :
    (∀ text : String, ∀ s ∈ (process_markdown text).2,
      s.segments ≠ [] ∧ ∀ seg ∈ s.segments, seg.text ≠ "") ∧
    process_markdown "[alias:A=Voice1]\n## S1\n[voice:A] Hello. [voice:Voice2] World." =
      ([("A", "Voice1")],
       [MarkdownSection.mk "S1" "s1.mp3"
         [VoiceSegment.mk "Voice1" "Hello.", VoiceSegment.mk "Voice2" "World."]]) ∧
    (processMarkdownDocument (fun _ _ _ => SynthOutcome.ok)
        "[alias:A=Voice1]\n## S1\n[voice:A] Hello. [voice:Voice2] World."
        "Default" "out" false (RunState.mk [] [] [] [])).results =
      [("out/s1.mp3", true)] := by
  refine ⟨?_, by decide, by decide⟩
  intro text s hs
  obtain ⟨b, _, hb⟩ := mem_process_markdown_sections hs
  obtain ⟨hsegs, hne⟩ := mkInlineSection_some hb
  refine ⟨hne, ?_⟩
  intro seg hseg
  rw [hsegs] at hseg
  exact segmentSpan_text_nonempty _ _ seg hseg

/-- Witness for C1: the general invariant applied to the end-to-end
document's section. -/
theorem C1_parse_contract_witness :
    (MarkdownSection.mk "S1" "s1.mp3"
        [VoiceSegment.mk "Voice1" "Hello.", VoiceSegment.mk "Voice2" "World."]).segments ≠ [] ∧
    ∀ seg ∈ (MarkdownSection.mk "S1" "s1.mp3"
        [VoiceSegment.mk "Voice1" "Hello.", VoiceSegment.mk "Voice2" "World."]).segments,
      seg.text ≠ "" :=
  C1_parse_contract.1 "[alias:A=Voice1]\n## S1\n[voice:A] Hello. [voice:Voice2] World."
    (MarkdownSection.mk "S1" "s1.mp3"
      [VoiceSegment.mk "Voice1" "Hello.", VoiceSegment.mk "Voice2" "World."])
    (by decide)

/-- C6: a candidate section (heading plus span) is kept in the parse output
only if its span contains a voice-switch marker (`[voice:` occurs in it);
and when no candidate's span contains one, `parse` returns the empty
section list (it never fails). -/
theorem C6_sections_require_voice_marker (text : String) :
    (∀ s ∈ (process_markdown text).2, ∃ b ∈ groupBlocks (splitLines text.data),
      mkInlineSection (collectAliases (splitLines text.data)) b = some s ∧
      (splitOnFirst voiceMarkerPat (joinLines b.2)).isSome = true) ∧
    ((∀ b ∈ groupBlocks (splitLines text.data),
        (splitOnFirst voiceMarkerPat (joinLines b.2)).isSome = false) →
      (process_markdown text).2 = []) := by
  constructor
  · intro s hs
    obtain ⟨b, hbmem, hb⟩ := mem_process_markdown_sections hs
    refine ⟨b, hbmem, hb, ?_⟩
    cases hsp : splitOnFirst voiceMarkerPat (joinLines b.2) with
    | none =>
      exfalso
      have hnil := segmentSpan_eq_nil_of_no_marker
        (collectAliases (splitLines text.data)) (joinLines b.2) hsp
      rw [mkInlineSection, hnil] at hb
      exact absurd hb (by simp)
    | some pair => rfl
  · intro hno
    simp only [process_markdown]
    rw [List.filterMap_eq_nil]
    intro b hb
    have hsp : splitOnFirst voiceMarkerPat (joinLines b.2) = none := by
      have := hno b hb
      cases hq : splitOnFirst voiceMarkerPat (joinLines b.2) with
      | none => rfl
      | some pair =>
        rw [hq] at this
        exact absurd this (by simp)
    rw [mkInlineSection,
      segmentSpan_eq_nil_of_no_marker (collectAliases (splitLines text.data)) _ hsp]
    rfl

/-- Witness for C6: a document whose only section span holds no voice
marker parses to the empty section list. -/
theorem C6_sections_require_voice_marker_witness :
    (process_markdown "# T\nhello").2 = [] :=
  (C6_sections_require_voice_marker "# T\nhello").2 (by decide)

/-! ### Annotation-dialect filename lemmas -/

theorem buildSections_level_one :
    ∀ (bs : List (Heading × String)) (hier : List (Nat × String)) (i : Nat)
      (h : Heading) (c : String) (s : MarkdownParser.MarkdownSection),
      bs.get? i = some (h, c) → h.level = 1 → h.filePar = none →
      (MarkdownParser.buildSections bs hier).get? i = some s →
      s.file_path = MarkdownParser.generate_filename_from_title h.title := by
  intro bs
  induction bs with
  | nil =>
    intro hier i h c s hb _ _ _
    simp at hb
  | cons hd rest ih =>
    obtain ⟨h0, c0⟩ := hd
    intro hier i h c s hb hlvl hfile hp
    cases i with
    | zero =>
      simp only [List.get?_cons_zero, Option.some.injEq, Prod.mk.injEq] at hb
      obtain ⟨rfl, rfl⟩ := hb
      rw [MarkdownParser.buildSections] at hp
      simp only [List.get?_cons_zero, Option.some.injEq] at hp
      subst hp
      simp only [hfile, hlvl, MarkdownParser.sectionPath]
      rfl
    | succ j =>
      simp only [List.get?_cons_succ] at hb
      rw [MarkdownParser.buildSections] at hp
      simp only [List.get?_cons_succ] at hp
      exact ih ((h0.level, h0.title) :: hier) j h c s hb hlvl hfile hp

/-- C8 (amended): a parsed section without a `file=` annotation gets its
`file_path` from the filename derivation applied to the underscore-join of
the hierarchy titles at levels `1..level`; for a level-1 heading this is
the derivation of the section's own title, but deeper sections include
their recorded ancestors, as the level-2 section `S` under `A` whose path
derives from `"A_S"` shows. -/
theorem C8_file_path_from_hierarchy :
    (∀ (text : String) (i : Nat) (h : Heading) (ls : List (List Char))
        (s : MarkdownParser.MarkdownSection),
      (groupBlocks (splitLines text.data)).get? i = some (h, ls) →
      h.level = 1 → h.filePar = none →
      (MarkdownParser.parse text).get? i = some s →
      s.file_path = MarkdownParser.generate_filename_from_title h.title) ∧
    (MarkdownParser.parse "# A\n## S\nx\n# B\n## S\ny").get? 1 =
      some (MarkdownParser.MarkdownSection.mk "S" "x"
        (MarkdownParser.generate_filename_from_title "A_S") none) := by
  constructor
  · intro text i h ls s hb hlvl hfile hp
    simp only [MarkdownParser.parse] at hp
    have hb' : ((groupBlocks (splitLines text.data)).map
        (fun b => (b.1, String.mk (trimChars (joinLines b.2))))).get? i =
        some (h, String.mk (trimChars (joinLines ls))) := by
      rw [List.get?_map, hb]
      rfl
    exact buildSections_level_one _ [] i h _ s hb' hlvl hfile hp
  · decide

/-- Counterexample to C8 as stated: in
`"# A\n## S\nx\n# B\n## S\ny"` the two level-2 sections share the title
`S`, yet their generated file paths are `a_s.mp3` and `b_s.mp3` — neither
equals the derivation of the section's own title (`s.mp3`), and the two
equal-titled sections do not get equal paths. -/
theorem C8_counterexample :
    (MarkdownParser.parse "# A\n## S\nx\n# B\n## S\ny").get? 1 =
      some (MarkdownParser.MarkdownSection.mk "S" "x" "a_s.mp3" none) ∧
    (MarkdownParser.parse "# A\n## S\nx\n# B\n## S\ny").get? 3 =
      some (MarkdownParser.MarkdownSection.mk "S" "y" "b_s.mp3" none) ∧
    MarkdownParser.generate_filename_from_title "S" = "s.mp3" ∧
    ("a_s.mp3" : String) ≠ "s.mp3" ∧ ("a_s.mp3" : String) ≠ "b_s.mp3" := by
  decide

/-- Witness for C8: a level-1 section's generated path is the derivation of
its own title. -/
theorem C8_file_path_from_hierarchy_witness :
    (MarkdownParser.parse "# Hello World\nsome text").get? 0 =
      some (MarkdownParser.MarkdownSection.mk "Hello World" "some text"
        "hello_world.mp3" none) ∧
    (MarkdownParser.MarkdownSection.mk "Hello World" "some text"
        "hello_world.mp3" none).file_path =
      MarkdownParser.generate_filename_from_title "Hello World" :=
  ⟨by decide,
   C8_file_path_from_hierarchy.1 "# Hello World\nsome text" 0
     (Heading.mk 1 "Hello World" none none) ["some text".data]
     (MarkdownParser.MarkdownSection.mk "Hello World" "some text"
       "hello_world.mp3" none)
     (by decide) rfl rfl (by decide)⟩
